import Mathlib

/-!
Shallow embedding of `src/analyser.py` (bank-statement-analyser).

Conventions of the embedding:
* Python `Decimal` amounts are modelled as `ℚ` (exact decimal arithmetic);
* a Python `dict` / `defaultdict(Decimal)` is an insertion-ordered association
  list with unique keys; `defaultdict` reads of missing keys are `getD` with
  default `0`;
* the interactive console is the boundary: the user's replies arrive as a
  `List String` of raw input lines, consumed in order (`console.input`);
  `str.strip()` is `pyStrip`, `str.lower()` is `pyLower`;
* rendering (rich panels, matplotlib) is display-only and not modelled.
-/

/-! ### String helpers (Python `str.strip`, `str.lower`) -/

/-- Python `str.strip()`: drop leading and trailing whitespace. -/
def pyStrip (s : String) : String :=
  ⟨((s.data.dropWhile Char.isWhitespace).reverse.dropWhile Char.isWhitespace).reverse⟩

/-- Python `str.lower()` (ASCII case folding suffices here: every keyword the
loop compares against is ASCII). -/
def pyLower (s : String) : String :=
  ⟨s.data.map Char.toLower⟩

/-! ### Ledger (Python dict of category → Decimal balance) -/

/-- A Python dict from category label to balance: insertion-ordered
association list. -/
abbrev Ledger := List (String × ℚ)

/-- Lookup of the (first) entry with a given key in an association list. -/
def lookupKey {β : Type} : List (String × β) → String → Option β
  | [], _ => none
  | p :: t, k => if p.1 = k then some p.2 else lookupKey t k

/-- Key membership of a dict (`k in d`). -/
def containsKey (l : Ledger) (k : String) : Bool :=
  (lookupKey l k).isSome

/-- Read of a `defaultdict(Decimal)`: a missing key reads as `0`. -/
def getD (l : Ledger) (k : String) : ℚ :=
  (lookupKey l k).getD 0

/-- Python `dict.setdefault(k, v)`: insert `(k, v)` at the end when `k` is
absent, otherwise leave the dict unchanged. -/
def setdefault (l : Ledger) (k : String) (v : ℚ) : Ledger :=
  if containsKey l k then l else l ++ [(k, v)]

/-- Python `d[k] += v` on a `defaultdict(Decimal)`: update the entry in place
when present, otherwise insert `(k, v)` at the end (the missing key first
defaults to `0`). -/
def addTo (l : Ledger) (k : String) (v : ℚ) : Ledger :=
  if containsKey l k then
    l.map (fun p => if p.1 = k then (p.1, p.2 + v) else p)
  else l ++ [(k, v)]

/-- Python `d[k] = v`: overwrite when present, insert at the end otherwise. -/
def dictInsert (l : Ledger) (k : String) (v : ℚ) : Ledger :=
  if containsKey l k then
    l.map (fun p => if p.1 = k then (p.1, v) else p)
  else l ++ [(k, v)]

/-! ### Data model of `analyser.py` -/

/-- The fixed numbered category menu (`CATEGORIES`, analyser.py lines 18-30):
selector key → label. -/
def CATEGORIES : List (String × String) :=
  [("1", "Groceries"), ("2", "Eating out"), ("3", "Guinness"),
   ("4", "Homewares"), ("5", "Transport"), ("6", "Entertainment"),
   ("7", "Shopping"), ("8", "Fitness"), ("9", "Subscriptions"),
   ("10", "Rent"), ("11", "Miscellaneous")]

/-- One extracted transaction (the dict built at analyser.py lines 93-99);
`raw_debit`/`raw_credit` are never read again and are omitted. -/
structure Txn where
  date : String
  merchant : String
  amount : ℚ
deriving DecidableEq, Repr

/-- A CSV row after date parsing and range filtering (analyser.py lines
66-78 drop rows with bad or out-of-range dates before this point), with the
`Debit` and `Credit` columns already run through `to_decimal`. -/
structure Row where
  date : String
  narration : String
  debit : ℚ
  credit : ℚ
deriving DecidableEq, Repr

/-- The signed-amount construction of `extract_transactions` (analyser.py
lines 85-91): take the debit when nonzero, else the credit when nonzero,
else skip the row (`continue`). -/
def selectAmount (debit credit : ℚ) : Option ℚ :=
  if debit ≠ 0 then some debit
  else if credit ≠ 0 then some credit
  else none

/-- `extract_transactions` restricted to its per-row transaction building
(analyser.py lines 80-99), applied to the date-valid in-range rows. -/
def extract_transactions (rows : List Row) : List Txn :=
  rows.filterMap (fun r =>
    (selectAmount r.debit r.credit).map (fun a => ⟨r.date, r.narration, a⟩))

/-! ### The categorisation engine (`categorise_transactions`) -/

/-- One history entry (analyser.py: `history.append((i, cat, amt))`):
transaction index, affected category (`none` for a skip), amount applied. -/
abbrev Decision := ℕ × Option String × ℚ

/-- The in-memory state of the `categorise_transactions` loop: the cursor
`i`, the balances dict, the decision stack (head = most recent), and the
`quit_early` flag. -/
structure EngineState where
  i : ℕ
  balances : Ledger
  history : List Decision
  quitEarly : Bool
deriving DecidableEq, Repr

/-- The category seeding on entry to `categorise_transactions` (analyser.py
lines 180-183): `setdefault` every predefined category and `"Income"` to
`Decimal("0")`. -/
def seedBalances (b : Ledger) : Ledger :=
  setdefault ((CATEGORIES.map Prod.snd).foldl (fun acc c => setdefault acc c 0) b)
    "Income" 0

/-- The empty-input branch (analyser.py lines 215-218): record a no-op
decision and advance the cursor. -/
def skipStep (s : EngineState) : EngineState :=
  ⟨s.i + 1, s.balances, (s.i, none, 0) :: s.history, s.quitEarly⟩

/-- The back branch (analyser.py lines 224-232): with empty history print
"No action to go back to." and re-prompt (state unchanged); otherwise pop
the most recent decision, reverse its ledger effect when it touched a
category, and move the cursor back to its transaction index. -/
def backStep (s : EngineState) : EngineState :=
  match s.history with
  | [] => s
  | (idx, prevCat, prevAmt) :: h' =>
    let b' := match prevCat with
      | none => s.balances
      | some c => addTo s.balances c (-prevAmt)
    ⟨idx, b', h', s.quitEarly⟩

/-- The income branch (analyser.py lines 234-241): reject non-positive
amounts ("Income only makes sense for positive amounts.", state unchanged,
re-prompt), otherwise add the amount to `"Income"`, record the decision and
advance. -/
def incomeStep (s : EngineState) (amt : ℚ) : EngineState :=
  if amt ≤ 0 then s
  else ⟨s.i + 1, addTo s.balances "Income" amt,
        (s.i, some "Income", amt) :: s.history, s.quitEarly⟩

/-- The new-category branch after the name prompt (analyser.py lines
244-252): reject an empty stripped name ("Category name cannot be empty.",
state unchanged, re-prompt), otherwise `setdefault` the label to 0, add the
amount to it, record the decision and advance. -/
def newCatStep (s : EngineState) (amt : ℚ) (newCat : String) : EngineState :=
  if newCat = "" then s
  else ⟨s.i + 1, addTo (setdefault s.balances newCat 0) newCat amt,
        (s.i, some newCat, amt) :: s.history, s.quitEarly⟩

/-- The numbered-category / fall-through branch (analyser.py lines 254-261):
when the choice is a key of `CATEGORIES` add the amount to its category,
record the decision and advance; otherwise print "Invalid choice." and
re-prompt (state unchanged). -/
def keyStep (s : EngineState) (choice : String) (amt : ℚ) : EngineState :=
  match lookupKey CATEGORIES choice with
  | some cat =>
    ⟨s.i + 1, addTo s.balances cat amt, (s.i, some cat, amt) :: s.history, s.quitEarly⟩
  | none => s

/-- The outcome of dispatching one console reply, one constructor per branch
of the `elif` chain of analyser.py lines 215-261. -/
inductive MenuAction where
  | skip
  | quit
  | back
  | income
  | newcat
  | key (choice : String)
deriving DecidableEq, Repr

/-- The dispatch on `choice = raw_choice.strip().lower()` (analyser.py lines
213-261), with the branches tried in the source's order; every string that is
none of the keywords falls through to the numbered-category / invalid-choice
branch. -/
def parseChoice (choice : String) : MenuAction :=
  if choice = "" then .skip
  else if choice = "q" ∨ choice = "quit" then .quit
  else if choice = "b" ∨ choice = "back" then .back
  else if choice = "i" then .income
  else if choice = "n" then .newcat
  else .key choice

/-- The interactive `while i < len(transactions)` loop of
`categorise_transactions` (analyser.py lines 189-262), driven by the list of
raw console inputs. Each loop iteration consumes one input line (two for the
new-category branch, which prompts again for the name). The loop stops when
the cursor passes the last transaction, on quit, or when the input script is
exhausted (the program would block on `console.input`). -/
def runLoop (txns : List Txn) : EngineState → List String → EngineState
  | s, [] => s
  | s, raw :: rest =>
    match txns.get? s.i with
    | none => s
    | some txn =>
      match parseChoice (pyLower (pyStrip raw)) with
      | .skip => runLoop txns (skipStep s) rest
      | .quit =>
        -- quit: set the flag and break out of the loop (later input unread)
        ⟨s.i, s.balances, s.history, true⟩
      | .back => runLoop txns (backStep s) rest
      | .income => runLoop txns (incomeStep s txn.amount) rest
      | .newcat =>
        match rest with
        | [] => s
        | nameRaw :: rest' => runLoop txns (newCatStep s txn.amount (pyStrip nameRaw)) rest'
      | .key choice => runLoop txns (keyStep s choice txn.amount) rest

/-- `categorise_transactions(transactions, start_line, balances)` (analyser.py
lines 179-263): seed the default categories, run the interactive loop from
`start_line`, and return the balances together with the `quit_early` flag. -/
def categorise_transactions (txns : List Txn) (startLine : ℕ) (balances : Ledger)
    (inputs : List String) : Ledger × Bool :=
  let s := runLoop txns ⟨startLine, seedBalances balances, [], false⟩ inputs
  (s.balances, s.quitEarly)

/-! ### Basic dict lemmas -/

lemma lookupKey_append {β : Type} (l₁ l₂ : List (String × β)) (k : String) :
    lookupKey (l₁ ++ l₂) k = (lookupKey l₁ k).or (lookupKey l₂ k) := by
  induction l₁ with
  | nil => simp [lookupKey]
  | cons p t ih =>
    by_cases hp : p.1 = k
    · simp [lookupKey, hp]
    · simp [lookupKey, hp, ih]

lemma lookupKey_map_add (t : Ledger) (k k' : String) (v : ℚ) :
    lookupKey (t.map fun p => if p.1 = k then (p.1, p.2 + v) else p) k' =
      if k' = k then (lookupKey t k).map (fun x => x + v) else lookupKey t k' := by
  induction t with
  | nil => simp [lookupKey]
  | cons p t ih =>
    rcases p with ⟨pk, pv⟩
    by_cases hp : pk = k
    · subst hp
      by_cases hk : k' = pk
      · subst hk
        simp [lookupKey]
      · have hk2 : ¬ pk = k' := fun h => hk h.symm
        simp [lookupKey, hk2, ih, hk]
    · by_cases hk : pk = k'
      · have hkk : ¬ k' = k := fun h => hp (hk.trans h)
        simp [lookupKey, hp, hk, hkk]
      · simp [lookupKey, hp, hk, ih]

lemma lookupKey_addTo (l : Ledger) (k k' : String) (v : ℚ) :
    lookupKey (addTo l k v) k' =
      if k' = k then some ((lookupKey l k).getD 0 + v) else lookupKey l k' := by
  unfold addTo
  by_cases hc : containsKey l k
  · rw [if_pos hc, lookupKey_map_add]
    rcases hx : lookupKey l k with _ | x
    · simp [containsKey, hx] at hc
    · by_cases hk : k' = k <;> simp [hk, hx]
  · rw [if_neg hc, lookupKey_append]
    have hnone : lookupKey l k = none := by
      by_contra h
      exact hc (by simpa [containsKey, Option.isSome_iff_ne_none] using h)
    by_cases hk : k' = k
    · subst hk
      simp [hnone, lookupKey]
    · have hk2 : ¬ k = k' := fun h => hk h.symm
      simp [hk, lookupKey, hk2]

lemma getD_addTo (l : Ledger) (k k' : String) (v : ℚ) :
    getD (addTo l k v) k' = getD l k' + if k' = k then v else 0 := by
  unfold getD
  rw [lookupKey_addTo]
  by_cases hk : k' = k
  · subst hk
    simp
  · simp [hk]

lemma containsKey_addTo_self (l : Ledger) (k : String) (v : ℚ) :
    containsKey (addTo l k v) k = true := by
  simp [containsKey, lookupKey_addTo]

lemma containsKey_addTo_of (l : Ledger) (k k' : String) (v : ℚ)
    (h : containsKey l k' = true) : containsKey (addTo l k v) k' = true := by
  by_cases hk : k' = k
  · subst hk
    exact containsKey_addTo_self l k' v
  · simpa [containsKey, lookupKey_addTo, hk] using h

lemma setdefault_of_containsKey (l : Ledger) (k : String) (v : ℚ)
    (h : containsKey l k = true) : setdefault l k v = l := by
  simp [setdefault, h]

lemma getD_setdefault_zero (l : Ledger) (k k' : String) :
    getD (setdefault l k 0) k' = getD l k' := by
  unfold setdefault
  by_cases hc : containsKey l k
  · simp [hc]
  · rw [if_neg hc]
    unfold getD
    rw [lookupKey_append]
    by_cases hk : k = k'
    · subst hk
      have hnone : lookupKey l k = none := by
        by_contra h
        exact hc (by simpa [containsKey, Option.isSome_iff_ne_none] using h)
      simp [hnone, lookupKey]
    · simp [lookupKey, hk]

lemma containsKey_setdefault_self (l : Ledger) (k : String) (v : ℚ) :
    containsKey (setdefault l k v) k = true := by
  unfold setdefault
  by_cases hc : containsKey l k
  · simp [hc]
  · rw [if_neg hc]
    simp [containsKey, lookupKey_append, lookupKey]

lemma containsKey_setdefault_of (l : Ledger) (k k' : String) (v : ℚ)
    (h : containsKey l k' = true) : containsKey (setdefault l k v) k' = true := by
  unfold setdefault
  by_cases hc : containsKey l k
  · simpa [hc]
  · rw [if_neg hc]
    rcases hx : lookupKey l k' with _ | x
    · simp [containsKey, hx] at h
    · simp [containsKey, lookupKey_append, hx]

lemma getD_foldl_setdefault (cs : List String) (k : String) :
    ∀ b : Ledger, getD (cs.foldl (fun acc c => setdefault acc c 0) b) k = getD b k := by
  induction cs with
  | nil => intro b; rfl
  | cons c cs ih => intro b; rw [List.foldl_cons, ih, getD_setdefault_zero]

lemma getD_seedBalances (b : Ledger) (k : String) :
    getD (seedBalances b) k = getD b k := by
  unfold seedBalances
  rw [getD_setdefault_zero, getD_foldl_setdefault]

lemma containsKey_foldl_setdefault_of (cs : List String) (k : String) :
    ∀ b : Ledger, containsKey b k = true →
      containsKey (cs.foldl (fun acc c => setdefault acc c 0) b) k = true := by
  induction cs with
  | nil => intro b h; exact h
  | cons c cs ih =>
    intro b h
    exact ih _ (containsKey_setdefault_of _ _ _ _ h)

lemma containsKey_foldl_setdefault_mem (cs : List String) (k : String) (hk : k ∈ cs) :
    ∀ b : Ledger, containsKey (cs.foldl (fun acc c => setdefault acc c 0) b) k = true := by
  induction cs with
  | nil => cases hk
  | cons c cs ih =>
    intro b
    rcases List.mem_cons.mp hk with h | h
    · subst h
      by_cases hcs : k ∈ cs
      · exact ih hcs _
      · exact containsKey_foldl_setdefault_of cs k _ (containsKey_setdefault_self b k 0)
    · exact ih h _

lemma containsKey_seedBalances_of (b : Ledger) (k : String)
    (h : containsKey b k = true) : containsKey (seedBalances b) k = true := by
  unfold seedBalances
  exact containsKey_setdefault_of _ _ _ _ (containsKey_foldl_setdefault_of _ _ _ h)

lemma containsKey_seedBalances_mem (b : Ledger) (k : String)
    (h : k ∈ CATEGORIES.map Prod.snd ++ ["Income"]) :
    containsKey (seedBalances b) k = true := by
  unfold seedBalances
  rcases List.mem_append.mp h with h | h
  · exact containsKey_setdefault_of _ _ _ _ (containsKey_foldl_setdefault_mem _ _ h _)
  · simp only [List.mem_singleton] at h
    subst h
    exact containsKey_setdefault_self _ _ _

/-! ### One-iteration unfoldings of the loop -/

lemma runLoop_nil (txns : List Txn) (s : EngineState) : runLoop txns s [] = s := rfl

lemma runLoop_pastEnd (txns : List Txn) (s : EngineState) (raw : String)
    (rest : List String) (h : txns.get? s.i = none) :
    runLoop txns s (raw :: rest) = s := by
  rw [runLoop, h]

lemma runLoop_skip (txns : List Txn) (s : EngineState) (raw : String)
    (rest : List String) (txn : Txn) (h : txns.get? s.i = some txn)
    (hc : parseChoice (pyLower (pyStrip raw)) = .skip) :
    runLoop txns s (raw :: rest) = runLoop txns (skipStep s) rest := by
  rw [runLoop, h, hc]

lemma runLoop_quit (txns : List Txn) (s : EngineState) (raw : String)
    (rest : List String) (txn : Txn) (h : txns.get? s.i = some txn)
    (hc : parseChoice (pyLower (pyStrip raw)) = .quit) :
    runLoop txns s (raw :: rest) = ⟨s.i, s.balances, s.history, true⟩ := by
  rw [runLoop, h, hc]

lemma runLoop_back (txns : List Txn) (s : EngineState) (raw : String)
    (rest : List String) (txn : Txn) (h : txns.get? s.i = some txn)
    (hc : parseChoice (pyLower (pyStrip raw)) = .back) :
    runLoop txns s (raw :: rest) = runLoop txns (backStep s) rest := by
  rw [runLoop, h, hc]

lemma runLoop_income (txns : List Txn) (s : EngineState) (raw : String)
    (rest : List String) (txn : Txn) (h : txns.get? s.i = some txn)
    (hc : parseChoice (pyLower (pyStrip raw)) = .income) :
    runLoop txns s (raw :: rest) = runLoop txns (incomeStep s txn.amount) rest := by
  rw [runLoop, h, hc]

lemma runLoop_newcat (txns : List Txn) (s : EngineState) (raw nameRaw : String)
    (rest : List String) (txn : Txn) (h : txns.get? s.i = some txn)
    (hc : parseChoice (pyLower (pyStrip raw)) = .newcat) :
    runLoop txns s (raw :: nameRaw :: rest) =
      runLoop txns (newCatStep s txn.amount (pyStrip nameRaw)) rest := by
  rw [runLoop, h, hc]

lemma runLoop_key (txns : List Txn) (s : EngineState) (raw cho : String)
    (rest : List String) (txn : Txn) (h : txns.get? s.i = some txn)
    (hc : parseChoice (pyLower (pyStrip raw)) = .key cho) :
    runLoop txns s (raw :: rest) = runLoop txns (keyStep s cho txn.amount) rest := by
  rw [runLoop, h, hc]

/-! ### Replaying the active decisions -/

/-- The ledger effect of one recorded decision: a skip does nothing, any
other decision adds its recorded amount to its recorded category. -/
def applyDecision (b : Ledger) (d : Decision) : Ledger :=
  match d.2.1 with
  | none => b
  | some c => addTo b c d.2.2

/-- Apply a list of decisions to a ledger, first decision first. -/
def replayLedger (b : Ledger) (ds : List Decision) : Ledger :=
  ds.foldl applyDecision b

lemma replayLedger_push (b0 : Ledger) (h : List Decision) (d : Decision) :
    replayLedger b0 ((d :: h).reverse) = applyDecision (replayLedger b0 h.reverse) d := by
  simp [replayLedger, List.foldl_append]

/-- Transfer of the replay equation across pushing a category decision. -/
lemma balEq_push (b0 bal : Ledger) (h : List Decision) (i : ℕ) (c : String) (amt : ℚ)
    (hyp : ∀ k, getD bal k = getD (replayLedger b0 h.reverse) k) :
    ∀ k, getD (addTo bal c amt) k =
      getD (replayLedger b0 (((i, some c, amt) : Decision) :: h).reverse) k := by
  intro k
  rw [replayLedger_push]
  simp only [applyDecision, getD_addTo, hyp k]

/-- Transfer of the replay equation across popping a category decision. -/
lemma balEq_pop (b0 bal : Ledger) (h' : List Decision) (i : ℕ) (c : String) (amt : ℚ)
    (hyp : ∀ k, getD bal k = getD (replayLedger b0 (((i, some c, amt) : Decision) :: h').reverse) k) :
    ∀ k, getD (addTo bal c (-amt)) k = getD (replayLedger b0 h'.reverse) k := by
  intro k
  rw [getD_addTo, hyp k, replayLedger_push]
  simp only [applyDecision, getD_addTo]
  by_cases hk : k = c
  · rw [if_pos hk, if_pos hk]
    ring
  · rw [if_neg hk, if_neg hk]
    ring

/-- Core invariant of `categorise_transactions`: at every point of the loop,
the balances dict agrees (category by category) with replaying the stacked
decisions, oldest first, over the ledger the invariant started from. -/
lemma runLoop_balances_replay (txns : List Txn) (b0 : Ledger) :
    ∀ (s : EngineState) (inputs : List String),
      (∀ k, getD s.balances k = getD (replayLedger b0 s.history.reverse) k) →
      ∀ k, getD (runLoop txns s inputs).balances k =
        getD (replayLedger b0 (runLoop txns s inputs).history.reverse) k := by
  intro s inputs
  induction s, inputs using runLoop.induct txns with
  | case1 s =>
    intro hyp k
    exact hyp k
  | case2 s raw rest hget =>
    intro hyp k
    rw [runLoop_pastEnd txns s raw rest hget]
    exact hyp k
  | case3 s raw rest txn hget hparse ih =>
    intro hyp k
    rw [runLoop_skip txns s raw rest txn hget hparse]
    refine ih ?_ k
    intro k'
    rw [skipStep]
    simp only [replayLedger_push]
    simpa [applyDecision] using hyp k'
  | case4 s raw rest txn hget hparse =>
    intro hyp k
    rw [runLoop_quit txns s raw rest txn hget hparse]
    exact hyp k
  | case5 s raw rest txn hget hparse ih =>
    intro hyp k
    rw [runLoop_back txns s raw rest txn hget hparse]
    refine ih ?_ k
    intro k'
    rcases hh : s.history with _ | ⟨⟨idx, prevCat, prevAmt⟩, h'⟩
    · simp only [backStep, hh]
      rw [hh] at hyp
      exact hyp k'
    · rw [hh] at hyp
      rcases prevCat with _ | c
      · simp only [backStep, hh]
        have := hyp k'
        rw [replayLedger_push] at this
        simpa [applyDecision] using this
      · simp only [backStep, hh]
        exact balEq_pop b0 s.balances h' idx c prevAmt hyp k'
  | case6 s raw rest txn hget hparse ih =>
    intro hyp k
    rw [runLoop_income txns s raw rest txn hget hparse]
    refine ih ?_ k
    intro k'
    rw [incomeStep]
    by_cases hamt : txn.amount ≤ 0
    · rw [if_pos hamt]
      exact hyp k'
    · rw [if_neg hamt]
      exact balEq_push b0 s.balances s.history s.i "Income" txn.amount hyp k'
  | case7 s raw txn hget hparse =>
    intro hyp k
    have hstop : runLoop txns s [raw] = s := by rw [runLoop, hget, hparse]
    rw [hstop]
    exact hyp k
  | case8 s raw txn hget hparse nameRaw rest' ih =>
    intro hyp k
    rw [runLoop_newcat txns s raw nameRaw rest' txn hget hparse]
    refine ih ?_ k
    intro k'
    rw [newCatStep]
    by_cases hname : pyStrip nameRaw = ""
    · rw [if_pos hname]
      exact hyp k'
    · rw [if_neg hname]
      have hyp' : ∀ k, getD (setdefault s.balances (pyStrip nameRaw) 0) k =
          getD (replayLedger b0 s.history.reverse) k := by
        intro k
        rw [getD_setdefault_zero]
        exact hyp k
      exact balEq_push b0 _ s.history s.i (pyStrip nameRaw) txn.amount hyp' k'
  | case9 s raw rest txn hget cho hparse ih =>
    intro hyp k
    rw [runLoop_key txns s raw cho rest txn hget hparse]
    refine ih ?_ k
    intro k'
    rw [keyStep]
    rcases hcat : lookupKey CATEGORIES cho with _ | cat
    · exact hyp k'
    · exact balEq_push b0 s.balances s.history s.i cat txn.amount hyp k'

/-! ### History is stacked in transaction order -/

/-- The decision stack (head = most recent) carries strictly decreasing
transaction indices, all below the cursor. -/
def HistBoundAux (i : ℕ) (hist : List Decision) : Prop :=
  (∀ d ∈ hist, d.1 < i) ∧ hist.Pairwise (fun d e => e.1 < d.1)

lemma histBoundAux_push (i : ℕ) (hist : List Decision) (c : Option String) (a : ℚ)
    (hb : HistBoundAux i hist) : HistBoundAux (i + 1) ((i, c, a) :: hist) := by
  constructor
  · intro d hd
    rcases List.mem_cons.mp hd with h | h
    · subst h
      exact Nat.lt_succ_self i
    · exact Nat.lt_succ_of_lt (hb.1 d h)
  · exact List.pairwise_cons.mpr ⟨fun e he => hb.1 e he, hb.2⟩

lemma histBoundAux_pop (i idx : ℕ) (pc : Option String) (pa : ℚ) (hist : List Decision)
    (hb : HistBoundAux i ((idx, pc, pa) :: hist)) : HistBoundAux idx hist := by
  have hp := List.pairwise_cons.mp hb.2
  exact ⟨fun d hd => hp.1 d hd, hp.2⟩

lemma runLoop_histBound (txns : List Txn) :
    ∀ (s : EngineState) (inputs : List String),
      HistBoundAux s.i s.history →
      HistBoundAux (runLoop txns s inputs).i (runLoop txns s inputs).history := by
  intro s inputs
  induction s, inputs using runLoop.induct txns with
  | case1 s => exact fun hb => hb
  | case2 s raw rest hget =>
    intro hb
    rw [runLoop_pastEnd txns s raw rest hget]
    exact hb
  | case3 s raw rest txn hget hparse ih =>
    intro hb
    rw [runLoop_skip txns s raw rest txn hget hparse]
    exact ih (histBoundAux_push s.i s.history none 0 hb)
  | case4 s raw rest txn hget hparse =>
    intro hb
    rw [runLoop_quit txns s raw rest txn hget hparse]
    exact hb
  | case5 s raw rest txn hget hparse ih =>
    intro hb
    rw [runLoop_back txns s raw rest txn hget hparse]
    refine ih ?_
    rcases hh : s.history with _ | ⟨⟨idx, prevCat, prevAmt⟩, h'⟩
    · simpa only [backStep, hh] using (hh ▸ hb)
    · simp only [backStep, hh]
      exact histBoundAux_pop s.i idx prevCat prevAmt h' (hh ▸ hb)
  | case6 s raw rest txn hget hparse ih =>
    intro hb
    rw [runLoop_income txns s raw rest txn hget hparse]
    refine ih ?_
    rw [incomeStep]
    by_cases hamt : txn.amount ≤ 0
    · rw [if_pos hamt]
      exact hb
    · rw [if_neg hamt]
      exact histBoundAux_push s.i s.history (some "Income") txn.amount hb
  | case7 s raw txn hget hparse =>
    intro hb
    have hstop : runLoop txns s [raw] = s := by rw [runLoop, hget, hparse]
    rw [hstop]
    exact hb
  | case8 s raw txn hget hparse nameRaw rest' ih =>
    intro hb
    rw [runLoop_newcat txns s raw nameRaw rest' txn hget hparse]
    refine ih ?_
    rw [newCatStep]
    by_cases hname : pyStrip nameRaw = ""
    · rw [if_pos hname]
      exact hb
    · rw [if_neg hname]
      exact histBoundAux_push s.i s.history (some (pyStrip nameRaw)) txn.amount hb
  | case9 s raw rest txn hget cho hparse ih =>
    intro hb
    rw [runLoop_key txns s raw cho rest txn hget hparse]
    refine ih ?_
    rw [keyStep]
    rcases hcat : lookupKey CATEGORIES cho with _ | cat
    · exact hb
    · exact histBoundAux_push s.i s.history (some cat) txn.amount hb

/-! ### The engine never deletes a ledger key -/

lemma containsKey_runLoop_of (txns : List Txn) :
    ∀ (s : EngineState) (inputs : List String) (k : String),
      containsKey s.balances k = true →
      containsKey (runLoop txns s inputs).balances k = true := by
  intro s inputs
  induction s, inputs using runLoop.induct txns with
  | case1 s => exact fun k hk => hk
  | case2 s raw rest hget =>
    intro k hk
    rw [runLoop_pastEnd txns s raw rest hget]
    exact hk
  | case3 s raw rest txn hget hparse ih =>
    intro k hk
    rw [runLoop_skip txns s raw rest txn hget hparse]
    exact ih k hk
  | case4 s raw rest txn hget hparse =>
    intro k hk
    rw [runLoop_quit txns s raw rest txn hget hparse]
    exact hk
  | case5 s raw rest txn hget hparse ih =>
    intro k hk
    rw [runLoop_back txns s raw rest txn hget hparse]
    refine ih k ?_
    rcases hh : s.history with _ | ⟨⟨idx, prevCat, prevAmt⟩, h'⟩
    · simpa only [backStep, hh]
    · rcases prevCat with _ | c
      · simpa only [backStep, hh]
      · simp only [backStep, hh]
        exact containsKey_addTo_of _ _ _ _ hk
  | case6 s raw rest txn hget hparse ih =>
    intro k hk
    rw [runLoop_income txns s raw rest txn hget hparse]
    refine ih k ?_
    rw [incomeStep]
    by_cases hamt : txn.amount ≤ 0
    · rw [if_pos hamt]
      exact hk
    · rw [if_neg hamt]
      exact containsKey_addTo_of _ _ _ _ hk
  | case7 s raw txn hget hparse =>
    intro k hk
    have hstop : runLoop txns s [raw] = s := by rw [runLoop, hget, hparse]
    rw [hstop]
    exact hk
  | case8 s raw txn hget hparse nameRaw rest' ih =>
    intro k hk
    rw [runLoop_newcat txns s raw nameRaw rest' txn hget hparse]
    refine ih k ?_
    rw [newCatStep]
    by_cases hname : pyStrip nameRaw = ""
    · rw [if_pos hname]
      exact hk
    · rw [if_neg hname]
      exact containsKey_addTo_of _ _ _ _ (containsKey_setdefault_of _ _ _ _ hk)
  | case9 s raw rest txn hget cho hparse ih =>
    intro k hk
    rw [runLoop_key txns s raw cho rest txn hget hparse]
    refine ih k ?_
    rw [keyStep]
    rcases hcat : lookupKey CATEGORIES cho with _ | cat
    · exact hk
    · exact containsKey_addTo_of _ _ _ _ hk

/-! ### Persistence: `save_summary` and `load_summary` -/

/-- Round a rational to the nearest integer, ties to even: the rounding mode
(`ROUND_HALF_EVEN`) Python applies when formatting a `Decimal` with
`f"{bal:.2f}"`. -/
def roundHalfEven (q : ℚ) : ℤ :=
  let f := ⌊q⌋
  let r := q - f
  if r < 1/2 then f
  else if 1/2 < r then f + 1
  else if f % 2 = 0 then f else f + 1

/-- The exact numeric value printed by `f"{bal:.2f}"`: the balance quantized
to cents, ties to even. -/
def quantize2 (q : ℚ) : ℚ :=
  (roundHalfEven (q * 100) : ℚ) / 100

/-- `save_summary(path, balances)` (analyser.py lines 120-127): after the
`Category, Balance` header, one row per category sorted case-insensitively by
label (Python `sorted` with key `x[0].lower()`), the balance written with
two-decimal formatting. A row is modelled as its label and the exact numeric
value of the printed balance; the CSV text encoding is the `csv` module's. -/
def save_summary (balances : Ledger) : List (String × ℚ) :=
  (List.insertionSort (fun p q => pyLower p.1 ≤ pyLower q.1) balances).map
    (fun p => (p.1, quantize2 p.2))

/-- `load_summary(path)` (analyser.py lines 103-118): starting from an empty
`defaultdict(Decimal)`, read the data rows in file order and assign
`balances[cat] = to_decimal(val)`; `to_decimal` recovers exactly the numeric
value of a balance that was written with two-decimal formatting. -/
def load_summary (rows : List (String × ℚ)) : Ledger :=
  rows.foldl (fun b r => dictInsert b r.1 r.2) []

/-- `main` after a successful extraction (analyser.py lines 283-288): run the
engine, then persist the summary of whatever ledger it returned — the chart
is generated from the same ledger — whether or not the session quit early. -/
def main_after_extract (txns : List Txn) (startLine : ℕ) (b0 : Ledger)
    (inputs : List String) : List (String × ℚ) × Bool :=
  let r := categorise_transactions txns startLine b0 inputs
  (save_summary r.1, r.2)

lemma containsKey_iff_mem (l : Ledger) (k : String) :
    containsKey l k = true ↔ k ∈ l.map Prod.fst := by
  induction l with
  | nil => simp [containsKey, lookupKey]
  | cons p t ih =>
    by_cases hp : p.1 = k
    · simp [containsKey, lookupKey, hp]
    · have hp2 : ¬ k = p.1 := fun h => hp h.symm
      simpa [containsKey, lookupKey, hp, hp2] using ih

lemma mem_of_lookupKey_eq_some {β : Type} (l : List (String × β)) (k : String) (v : β)
    (h : lookupKey l k = some v) : (k, v) ∈ l := by
  induction l with
  | nil => simp [lookupKey] at h
  | cons p t ih =>
    rcases p with ⟨pk, pv⟩
    by_cases hp : pk = k
    · subst hp
      rw [lookupKey, if_pos rfl] at h
      obtain rfl : pv = v := by simpa using h
      exact List.mem_cons_self _ _
    · rw [lookupKey, if_neg hp] at h
      exact List.mem_cons_of_mem _ (ih h)

lemma lookupKey_eq_some_of_mem (l : Ledger) (k : String) (v : ℚ)
    (hnd : (l.map Prod.fst).Nodup) (h : (k, v) ∈ l) : lookupKey l k = some v := by
  induction l with
  | nil => cases h
  | cons p t ih =>
    rcases List.mem_cons.mp h with h | h
    · subst h
      simp [lookupKey]
    · have hnd2 : (p.1 :: t.map Prod.fst).Nodup := by
        rw [List.map_cons] at hnd
        exact hnd
      have hp : ¬ p.1 = k := by
        intro hpk
        have hk : k ∈ t.map Prod.fst := List.mem_map.mpr ⟨(k, v), h, rfl⟩
        exact (List.nodup_cons.mp hnd2).1 (hpk ▸ hk)
      rw [lookupKey, if_neg hp]
      exact ih (List.nodup_cons.mp hnd2).2 h

lemma lookupKey_eq_none_iff (l : Ledger) (k : String) :
    lookupKey l k = none ↔ k ∉ l.map Prod.fst := by
  rw [← containsKey_iff_mem]
  simp [containsKey, Option.isSome_iff_ne_none]

lemma lookupKey_perm_of_nodup (l₁ l₂ : Ledger) (hperm : l₁.Perm l₂)
    (hnd : (l₁.map Prod.fst).Nodup) (k : String) :
    lookupKey l₁ k = lookupKey l₂ k := by
  have hnd₂ : (l₂.map Prod.fst).Nodup := ((hperm.map Prod.fst).nodup_iff).mp hnd
  rcases hx : lookupKey l₁ k with _ | v
  · have hk : k ∉ l₁.map Prod.fst := (lookupKey_eq_none_iff l₁ k).mp hx
    have hk₂ : k ∉ l₂.map Prod.fst := fun h => hk ((hperm.map Prod.fst).mem_iff.mpr h)
    exact ((lookupKey_eq_none_iff l₂ k).mpr hk₂).symm
  · have hm : (k, v) ∈ l₂ := hperm.mem_iff.mp (mem_of_lookupKey_eq_some l₁ k v hx)
    exact (lookupKey_eq_some_of_mem l₂ k v hnd₂ hm).symm

lemma lookupKey_map_snd (l : Ledger) (f : ℚ → ℚ) (k : String) :
    lookupKey (l.map fun p => (p.1, f p.2)) k = (lookupKey l k).map f := by
  induction l with
  | nil => simp [lookupKey]
  | cons p t ih =>
    by_cases hp : p.1 = k
    · simp [lookupKey, hp]
    · simp [lookupKey, hp, ih]

lemma dictInsert_of_not_containsKey (l : Ledger) (k : String) (v : ℚ)
    (h : containsKey l k = false) : dictInsert l k v = l ++ [(k, v)] := by
  simp [dictInsert, h]

lemma load_summary_of_nodup (rows : List (String × ℚ))
    (hnd : (rows.map Prod.fst).Nodup) : load_summary rows = rows := by
  suffices h : ∀ (rs : List (String × ℚ)) (acc : Ledger),
      (∀ k ∈ rs.map Prod.fst, containsKey acc k = false) →
      (rs.map Prod.fst).Nodup →
      rs.foldl (fun b r => dictInsert b r.1 r.2) acc = acc ++ rs by
    simpa using h rows [] (by intro k hk; simp [containsKey, lookupKey]) hnd
  intro rs
  induction rs with
  | nil => intro acc hacc hnd2; simp
  | cons r rs ih =>
    intro acc hacc hnd2
    rcases r with ⟨k, v⟩
    rw [List.foldl_cons]
    rw [dictInsert_of_not_containsKey acc k v (hacc k (by simp))]
    rw [ih (acc ++ [(k, v)]) ?_ ?_]
    · simp
    · intro k' hk'
      have hk'acc : containsKey acc k' = false := hacc k' (by simp [hk'])
      have hnd3 : (k :: rs.map Prod.fst).Nodup := by
        rw [List.map_cons] at hnd2
        exact hnd2
      have hkk : ¬ k = k' := by
        intro h
        subst h
        exact (List.nodup_cons.mp hnd3).1 hk'
      rw [containsKey, lookupKey_append]
      rw [containsKey] at hk'acc
      rcases hx : lookupKey acc k' with _ | x
      · simp [lookupKey, hkk]
      · rw [hx] at hk'acc
        simp at hk'acc
    · have hnd3 : (k :: rs.map Prod.fst).Nodup := by
        rw [List.map_cons] at hnd2
        exact hnd2
      exact (List.nodup_cons.mp hnd3).2

lemma save_summary_keys_perm (b : Ledger) :
    ((save_summary b).map Prod.fst).Perm (b.map Prod.fst) := by
  unfold save_summary
  rw [List.map_map]
  have : (Prod.fst ∘ fun p : String × ℚ => (p.1, quantize2 p.2)) = Prod.fst := rfl
  rw [this]
  exact (List.perm_insertionSort _ b).map Prod.fst

lemma lookupKey_save_summary (b : Ledger) (hnd : (b.map Prod.fst).Nodup) (k : String) :
    lookupKey (save_summary b) k = (lookupKey b k).map quantize2 := by
  unfold save_summary
  rw [lookupKey_map_snd]
  have hperm := List.perm_insertionSort (fun p q : String × ℚ => pyLower p.1 ≤ pyLower q.1) b
  have hnds : ((List.insertionSort (fun p q : String × ℚ => pyLower p.1 ≤ pyLower q.1) b).map
      Prod.fst).Nodup := ((hperm.map Prod.fst).nodup_iff).mpr hnd
  rw [lookupKey_perm_of_nodup _ b hperm hnds k]

lemma roundHalfEven_sub_abs (q : ℚ) : |(roundHalfEven q : ℚ) - q| ≤ 1/2 := by
  have h1 : ((⌊q⌋ : ℤ) : ℚ) ≤ q := Int.floor_le q
  have h2 : q < (⌊q⌋ : ℤ) + 1 := Int.lt_floor_add_one q
  simp only [roundHalfEven]
  split_ifs with hr1 hr2 hpar
  · rw [abs_le]
    constructor <;> linarith
  · rw [abs_le]
    push_cast
    constructor <;> linarith
  · rw [abs_le]
    constructor <;> linarith
  · rw [abs_le]
    push_cast
    constructor <;> linarith

lemma quantize2_sub_abs (q : ℚ) : |quantize2 q - q| ≤ 1/200 := by
  have h := roundHalfEven_sub_abs (q * 100)
  have heq : quantize2 q - q = ((roundHalfEven (q * 100) : ℚ) - q * 100) / 100 := by
    unfold quantize2
    ring
  rw [heq, abs_div, abs_of_pos (show (0:ℚ) < 100 by norm_num)]
  linarith

lemma roundHalfEven_intCast (n : ℤ) : roundHalfEven (n : ℚ) = n := by
  simp [roundHalfEven]

lemma quantize2_of_den_one (q : ℚ) (h : (q * 100).den = 1) : quantize2 q = q := by
  have hn : (((q * 100).num : ℤ) : ℚ) = q * 100 := by
    exact_mod_cast Rat.coe_int_num_of_den_eq_one h
  unfold quantize2
  rw [← hn, roundHalfEven_intCast, hn]
  field_simp

lemma categorise_transactions_eq (txns : List Txn) (start : ℕ) (b0 : Ledger)
    (inputs : List String) :
    categorise_transactions txns start b0 inputs =
      ((runLoop txns ⟨start, seedBalances b0, [], false⟩ inputs).balances,
       (runLoop txns ⟨start, seedBalances b0, [], false⟩ inputs).quitEarly) := rfl

/-! ### The claims -/

/-- C1: after any sequence of resolve (category choice, income, new-category,
skip) and undo operations, the final decision stack holds exactly the
currently active (non-undone) decisions, its reverse is in transaction order
(strictly increasing transaction indices), and the per-category balances of
the ledger returned by `categorise_transactions` are exactly those obtained
by applying these active decisions, in that order, to the starting ledger. -/
theorem claim_C1_ledger_equals_replay_of_active_decisions (txns : List Txn)
    (start : ℕ) (b0 : Ledger) (inputs : List String) :
    (((runLoop txns ⟨start, seedBalances b0, [], false⟩ inputs).history.reverse).Pairwise
        (fun d e : Decision => d.1 < e.1)) ∧
    (∀ k, getD (categorise_transactions txns start b0 inputs).1 k =
      getD (replayLedger b0
        (runLoop txns ⟨start, seedBalances b0, [], false⟩ inputs).history.reverse) k) := by
  constructor
  · have hbase : HistBoundAux start ([] : List Decision) :=
      ⟨fun d hd => absurd hd (List.not_mem_nil d), List.Pairwise.nil⟩
    have hb := runLoop_histBound txns ⟨start, seedBalances b0, [], false⟩ inputs hbase
    exact List.pairwise_reverse.mpr hb.2
  · intro k
    rw [categorise_transactions_eq]
    have h0 : ∀ k', getD (EngineState.mk start (seedBalances b0) [] false).balances k' =
        getD (replayLedger b0
          ((EngineState.mk start (seedBalances b0) [] false).history.reverse)) k' := by
      intro k'
      dsimp only
      simpa [replayLedger] using getD_seedBalances b0 k'
    exact runLoop_balances_replay txns b0 ⟨start, seedBalances b0, [], false⟩ inputs h0 k

/-- C10: on entry `categorise_transactions` seeds every one of the eleven
predefined categories and the reserved Income category with balance 0 when
absent, and no later operation ever removes a ledger key, so the returned
ledger — and hence the saved summary — contains an entry for each of these
labels even when no decision applied an amount to them. -/
theorem claim_C10_default_categories_always_present (txns : List Txn)
    (start : ℕ) (b0 : Ledger) (inputs : List String) (c : String)
    (hc : c ∈ CATEGORIES.map Prod.snd ++ ["Income"]) :
    containsKey (categorise_transactions txns start b0 inputs).1 c = true ∧
    c ∈ (save_summary (categorise_transactions txns start b0 inputs).1).map Prod.fst := by
  have hseed : containsKey (EngineState.mk start (seedBalances b0) [] false).balances c = true := by
    dsimp only
    exact containsKey_seedBalances_mem b0 c hc
  have h1 : containsKey
      (runLoop txns ⟨start, seedBalances b0, [], false⟩ inputs).balances c = true :=
    containsKey_runLoop_of txns ⟨start, seedBalances b0, [], false⟩ inputs c hseed
  rw [categorise_transactions_eq]
  refine ⟨h1, ?_⟩
  exact (save_summary_keys_perm _).mem_iff.mpr ((containsKey_iff_mem _ c).mp h1)

/-- Witness for C10 at a concrete run: "Guinness" is present in the returned
ledger and in the saved summary even though the only transaction was
skipped. -/
theorem claim_C10_witness :
    containsKey (categorise_transactions [⟨"01/01/2024", "Shop", -50⟩] 0 [] [""]).1
        "Guinness" = true ∧
    "Guinness" ∈ (save_summary
        (categorise_transactions [⟨"01/01/2024", "Shop", -50⟩] 0 [] [""]).1).map Prod.fst :=
  claim_C10_default_categories_always_present [⟨"01/01/2024", "Shop", -50⟩] 0 [] [""]
    "Guinness" (by decide)

/-! ### Dispatch facts for the keyword inputs -/

lemma parseChoice_skip_of (cho : String) (h : cho = "") : parseChoice cho = .skip := by
  subst h
  decide

lemma parseChoice_quit_of (cho : String) (h : cho = "q" ∨ cho = "quit") :
    parseChoice cho = .quit := by
  rcases h with h | h <;> subst h <;> decide

lemma parseChoice_back_of (cho : String) (h : cho = "b" ∨ cho = "back") :
    parseChoice cho = .back := by
  rcases h with h | h <;> subst h <;> decide

lemma parseChoice_income_of (cho : String) (h : cho = "i") : parseChoice cho = .income := by
  subst h
  decide

lemma parseChoice_newcat_of (cho : String) (h : cho = "n") : parseChoice cho = .newcat := by
  subst h
  decide

lemma parseChoice_key_of_lookup (key cat : String)
    (hk : lookupKey CATEGORIES key = some cat) : parseChoice key = .key key := by
  have hmem : key ∈ CATEGORIES.map Prod.fst :=
    List.mem_map.mpr ⟨(key, cat), mem_of_lookupKey_eq_some CATEGORIES key cat hk, rfl⟩
  have hcases : key = "1" ∨ key = "2" ∨ key = "3" ∨ key = "4" ∨ key = "5" ∨
      key = "6" ∨ key = "7" ∨ key = "8" ∨ key = "9" ∨ key = "10" ∨ key = "11" := by
    simpa [CATEGORIES] using hmem
  rcases hcases with h|h|h|h|h|h|h|h|h|h|h <;> subst h <;> decide

/-- C9: an undo request when the decision history is empty fails (the
`NoHistoryError` of the spec is the "No action to go back to." rejection) and
is recovered by re-prompting: the input is consumed and the loop continues on
the same transaction with cursor, ledger, history and category set all
unchanged. -/
theorem claim_C9_undo_empty_history_rejected (txns : List Txn) (s : EngineState)
    (raw : String) (rest : List String) (txn : Txn)
    (hget : txns.get? s.i = some txn)
    (hraw : pyLower (pyStrip raw) = "b" ∨ pyLower (pyStrip raw) = "back")
    (hh : s.history = []) :
    runLoop txns s (raw :: rest) = runLoop txns s rest := by
  rw [runLoop_back txns s raw rest txn hget (parseChoice_back_of _ hraw)]
  have hb : backStep s = s := by
    simp only [backStep, hh]
  rw [hb]

/-- Witness for C9: undo on the very first prompt leaves the session exactly
where a run without that input would be. -/
theorem claim_C9_witness :
    runLoop [⟨"01/01/2024", "Shop", -3⟩] ⟨0, seedBalances [], [], false⟩ ["b", ""] =
      runLoop [⟨"01/01/2024", "Shop", -3⟩] ⟨0, seedBalances [], [], false⟩ [""] :=
  claim_C9_undo_empty_history_rejected [⟨"01/01/2024", "Shop", -3⟩]
    ⟨0, seedBalances [], [], false⟩ "b" [""] ⟨"01/01/2024", "Shop", -3⟩ rfl
    (Or.inl (by decide)) rfl

/-- C5: undo on a non-empty history pops the most recent decision, moves the
cursor back to that decision's transaction index, appends no new history
entry, and subtracts the recorded amount from the recorded category (the
reserved Income category included). -/
theorem claim_C5_undo_pops_and_subtracts (txns : List Txn) (s : EngineState)
    (raw : String) (rest : List String) (txn : Txn) (idx : ℕ) (c : String)
    (amt : ℚ) (h' : List Decision)
    (hget : txns.get? s.i = some txn)
    (hraw : pyLower (pyStrip raw) = "b" ∨ pyLower (pyStrip raw) = "back")
    (hh : s.history = (idx, some c, amt) :: h') :
    runLoop txns s (raw :: rest) =
      runLoop txns ⟨idx, addTo s.balances c (-amt), h', s.quitEarly⟩ rest ∧
    (∀ k, getD (addTo s.balances c (-amt)) k =
      getD s.balances k - (if k = c then amt else 0)) := by
  constructor
  · rw [runLoop_back txns s raw rest txn hget (parseChoice_back_of _ hraw)]
    have hb : backStep s = ⟨idx, addTo s.balances c (-amt), h', s.quitEarly⟩ := by
      simp only [backStep, hh]
    rw [hb]
  · intro k
    rw [getD_addTo]
    by_cases hk : k = c
    · rw [if_pos hk, if_pos hk]
      ring
    · rw [if_neg hk, if_neg hk]
      ring

/-- Witness for C5: undoing a recorded Groceries decision subtracts its
amount and moves the cursor back to its transaction. -/
theorem claim_C5_witness :
    runLoop [⟨"01/01/2024", "Shop", -50⟩, ⟨"02/01/2024", "X", -5⟩]
        ⟨1, addTo (seedBalances []) "Groceries" (-50),
         [(0, some "Groceries", -50)], false⟩ ["b"] =
      runLoop [⟨"01/01/2024", "Shop", -50⟩, ⟨"02/01/2024", "X", -5⟩]
        ⟨0, addTo (addTo (seedBalances []) "Groceries" (-50)) "Groceries" (-(-50)),
         [], false⟩ [] ∧
    (∀ k, getD (addTo (addTo (seedBalances []) "Groceries" (-50)) "Groceries" (-(-50))) k =
      getD (addTo (seedBalances []) "Groceries" (-50)) k -
        (if k = "Groceries" then (-50 : ℚ) else 0)) :=
  claim_C5_undo_pops_and_subtracts
    [⟨"01/01/2024", "Shop", -50⟩, ⟨"02/01/2024", "X", -5⟩]
    ⟨1, addTo (seedBalances []) "Groceries" (-50), [(0, some "Groceries", -50)], false⟩
    "b" [] ⟨"02/01/2024", "X", -5⟩ 0 "Groceries" (-50) [] rfl
    (Or.inl (by decide)) rfl

/-- C6: selecting income for a transaction whose amount is not strictly
positive is rejected (the spec's `InvalidOperationError`): the input is
consumed and the loop re-prompts for the same transaction with ledger,
history and cursor unchanged; for a strictly positive amount the amount is
added to the reserved Income accumulator, a decision is recorded, and the
cursor advances. -/
theorem claim_C6_income_requires_positive_amount (txns : List Txn)
    (s : EngineState) (raw : String) (rest : List String) (txn : Txn)
    (hget : txns.get? s.i = some txn)
    (hraw : pyLower (pyStrip raw) = "i") :
    (txn.amount ≤ 0 → runLoop txns s (raw :: rest) = runLoop txns s rest) ∧
    (0 < txn.amount → runLoop txns s (raw :: rest) =
      runLoop txns ⟨s.i + 1, addTo s.balances "Income" txn.amount,
        (s.i, some "Income", txn.amount) :: s.history, s.quitEarly⟩ rest) := by
  have hstep := runLoop_income txns s raw rest txn hget (parseChoice_income_of _ hraw)
  constructor
  · intro hle
    rw [hstep, incomeStep, if_pos hle]
  · intro hpos
    rw [hstep, incomeStep, if_neg (not_le.mpr hpos)]

/-- Witness for C6: income on a −10 transaction is rejected; income on a
+200 transaction adds 200 to Income. -/
theorem claim_C6_witness :
    (runLoop [⟨"01/01/2024", "Emp", 200⟩] ⟨0, seedBalances [], [], false⟩ ["i"] =
      runLoop [⟨"01/01/2024", "Emp", 200⟩]
        ⟨1, addTo (seedBalances []) "Income" 200, [(0, some "Income", 200)], false⟩ []) ∧
    (runLoop [⟨"01/01/2024", "Shop", -10⟩] ⟨0, seedBalances [], [], false⟩ ["i"] =
      runLoop [⟨"01/01/2024", "Shop", -10⟩] ⟨0, seedBalances [], [], false⟩ []) := by
  constructor
  · exact (claim_C6_income_requires_positive_amount [⟨"01/01/2024", "Emp", 200⟩]
      ⟨0, seedBalances [], [], false⟩ "i" [] ⟨"01/01/2024", "Emp", 200⟩ rfl
      (by decide)).2 (by norm_num)
  · exact (claim_C6_income_requires_positive_amount [⟨"01/01/2024", "Shop", -10⟩]
      ⟨0, seedBalances [], [], false⟩ "i" [] ⟨"01/01/2024", "Shop", -10⟩ rfl
      (by decide)).1 (by norm_num)

/-- C3 counterexample: "Groceries" already names an existing (predefined)
category, yet entering it as a new-category label on a −30 transaction is
not rejected: the amount is added to the existing Groceries balance and a
decision is recorded, so state does change. -/
theorem claim_C3_counterexample :
    getD (categorise_transactions
        [⟨"01/01/2024", "Shop", -30⟩, ⟨"02/01/2024", "X", -5⟩] 0 []
        ["n", "Groceries"]).1 "Groceries" = -30 ∧
    (runLoop [⟨"01/01/2024", "Shop", -30⟩, ⟨"02/01/2024", "X", -5⟩]
        ⟨0, seedBalances [], [], false⟩ ["n", "Groceries"]).history =
      [(0, some "Groceries", -30)] := by
  have hstep := runLoop_newcat [⟨"01/01/2024", "Shop", -30⟩, ⟨"02/01/2024", "X", -5⟩]
    ⟨0, seedBalances [], [], false⟩ "n" "Groceries" [] ⟨"01/01/2024", "Shop", -30⟩
    rfl (by decide)
  have hname : pyStrip "Groceries" = "Groceries" := by decide
  rw [hname] at hstep
  have hsd : setdefault (seedBalances []) "Groceries" 0 = seedBalances [] :=
    setdefault_of_containsKey _ _ _ (by decide)
  rw [categorise_transactions_eq]
  rw [hstep, runLoop_nil, newCatStep, if_neg (by decide : ¬ ("Groceries" : String) = "")]
  dsimp only
  constructor
  · rw [hsd, getD_addTo, if_pos rfl,
      (by decide : getD (seedBalances []) "Groceries" = 0)]
    norm_num
  · rfl

/-- C3 amended: the create-new-category input fails only when the entered
label strips to the empty string (state unchanged, the two inputs consumed,
re-prompt for the same transaction); a label equal — by case-sensitive exact
text match — to an existing category's label is accepted and merged: the
amount is added to that existing category's balance, a decision is recorded,
and the cursor advances. -/
theorem claim_C3_empty_label_rejected_duplicate_merged (txns : List Txn)
    (s : EngineState) (raw nameRaw : String) (rest : List String) (txn : Txn)
    (hget : txns.get? s.i = some txn)
    (hraw : pyLower (pyStrip raw) = "n") :
    (pyStrip nameRaw = "" →
      runLoop txns s (raw :: nameRaw :: rest) = runLoop txns s rest) ∧
    (pyStrip nameRaw ≠ "" → containsKey s.balances (pyStrip nameRaw) = true →
      runLoop txns s (raw :: nameRaw :: rest) =
        runLoop txns ⟨s.i + 1, addTo s.balances (pyStrip nameRaw) txn.amount,
          (s.i, some (pyStrip nameRaw), txn.amount) :: s.history, s.quitEarly⟩ rest) := by
  have hstep := runLoop_newcat txns s raw nameRaw rest txn hget
    (parseChoice_newcat_of _ hraw)
  constructor
  · intro hempty
    rw [hstep, newCatStep, if_pos hempty]
  · intro hne hmem
    rw [hstep, newCatStep, if_neg hne, setdefault_of_containsKey _ _ _ hmem]

/-- Witness for C3: an empty label (whitespace only) is rejected with no
state change, exercising the first part of the amended claim. -/
theorem claim_C3_witness :
    runLoop [⟨"01/01/2024", "Shop", -30⟩] ⟨0, seedBalances [], [], false⟩
        ["n", "   ", ""] =
      runLoop [⟨"01/01/2024", "Shop", -30⟩] ⟨0, seedBalances [], [], false⟩ [""] :=
  (claim_C3_empty_label_rejected_duplicate_merged [⟨"01/01/2024", "Shop", -30⟩]
    ⟨0, seedBalances [], [], false⟩ "n" "   " [""] ⟨"01/01/2024", "Shop", -30⟩ rfl
    (by decide)).1 (by decide)

/-- C2 counterexample: create new category "Pets" on a −30 transaction, then
undo. The claim says the ledger afterwards contains no entry for "Pets", but
the code only subtracts the amount and never deletes the key: "Pets" is
still a key of the ledger after the undo. -/
theorem claim_C2_counterexample :
    containsKey (categorise_transactions
        [⟨"01/01/2024", "Shop", -30⟩, ⟨"02/01/2024", "X", -5⟩] 0 []
        ["n", "Pets", "b"]).1 "Pets" = true := by
  decide

/-- C2 amended: undoing a decision that created a new category subtracts the
recorded amount from it but removes nothing: any label present in the
balances dict is still present after the loop consumes any further inputs
(undo included), and in the spec's own scenario the created category "Pets"
remains in the ledger with balance 0 after the undo. -/
theorem claim_C2_undo_never_removes_categories :
    (∀ (txns : List Txn) (s : EngineState) (inputs : List String) (k : String),
      containsKey s.balances k = true →
      containsKey (runLoop txns s inputs).balances k = true) ∧
    getD (categorise_transactions
        [⟨"01/01/2024", "Shop", -30⟩, ⟨"02/01/2024", "X", -5⟩] 0 []
        ["n", "Pets", "b"]).1 "Pets" = 0 := by
  constructor
  · exact fun txns s inputs k hk => containsKey_runLoop_of txns s inputs k hk
  · have hstep := runLoop_newcat [⟨"01/01/2024", "Shop", -30⟩, ⟨"02/01/2024", "X", -5⟩]
      ⟨0, seedBalances [], [], false⟩ "n" "Pets" ["b"] ⟨"01/01/2024", "Shop", -30⟩
      rfl (by decide)
    have hname : pyStrip "Pets" = "Pets" := by decide
    rw [hname] at hstep
    rw [categorise_transactions_eq, hstep, newCatStep,
      if_neg (by decide : ¬ ("Pets" : String) = "")]
    dsimp only
    have hstep2 := runLoop_back [⟨"01/01/2024", "Shop", -30⟩, ⟨"02/01/2024", "X", -5⟩]
      ⟨1, addTo (setdefault (seedBalances []) "Pets" 0) "Pets" (-30),
       [(0, some "Pets", -30)], false⟩ "b" [] ⟨"02/01/2024", "X", -5⟩ rfl (by decide)
    rw [hstep2, runLoop_nil]
    have hb : backStep ⟨1, addTo (setdefault (seedBalances []) "Pets" 0) "Pets" (-30),
        [(0, some "Pets", -30)], false⟩ =
        ⟨0, addTo (addTo (setdefault (seedBalances []) "Pets" 0) "Pets" (-30)) "Pets" (-(-30)),
         [], false⟩ := by
      simp only [backStep]
    rw [hb]
    dsimp only
    rw [getD_addTo, getD_addTo, if_pos rfl, if_pos rfl,
      (by decide : getD (setdefault (seedBalances []) "Pets" 0) "Pets" = 0)]
    norm_num

/-- Witness for C2: a key present before the loop runs is present after. -/
theorem claim_C2_witness :
    containsKey (runLoop [] ⟨0, [("Pets", 5)], [], false⟩ []).balances "Pets" = true :=
  claim_C2_undo_never_removes_categories.1 [] ⟨0, [("Pets", 5)], [], false⟩ [] "Pets"
    (by decide)

/-- C4 counterexample: a CSV row whose debit and credit both parse to zero —
a transaction with zero net amount — is dropped by `extract_transactions`
(`continue` at analyser.py line 91) and therefore never presented to the
user, contradicting "every transaction with zero net amount is presented". -/
theorem claim_C4_counterexample :
    extract_transactions [⟨"01/01/2024", "Zero row", 0, 0⟩] = [] := by
  decide

/-- C4 amended: a row with zero debit and zero credit is dropped at
extraction, contributing nothing to the transaction sequence; and for a
zero-amount transaction in the engine's sequence, choosing any numbered
category applies a zero delta — every category balance is unchanged — while
still appending one decision to the history and advancing the cursor. -/
theorem claim_C4_zero_amount_dropped_or_zero_delta (r : Row)
    (hd : r.debit = 0) (hc : r.credit = 0) :
    (∀ pre post : List Row, extract_transactions (pre ++ r :: post) =
      extract_transactions pre ++ extract_transactions post) ∧
    (∀ (txns : List Txn) (s : EngineState) (raw : String) (rest : List String)
        (txn : Txn) (cat : String),
      txns.get? s.i = some txn → txn.amount = 0 →
      lookupKey CATEGORIES (pyLower (pyStrip raw)) = some cat →
      runLoop txns s (raw :: rest) =
        runLoop txns ⟨s.i + 1, addTo s.balances cat 0,
          (s.i, some cat, 0) :: s.history, s.quitEarly⟩ rest ∧
      ∀ l, getD (addTo s.balances cat 0) l = getD s.balances l) := by
  constructor
  · intro pre post
    unfold extract_transactions
    rw [List.filterMap_append]
    congr 1
    rw [List.filterMap_cons]
    simp [selectAmount, hd, hc]
  · intro txns s raw rest txn cat hget hamt hk
    have hpc : parseChoice (pyLower (pyStrip raw)) = .key (pyLower (pyStrip raw)) :=
      parseChoice_key_of_lookup _ cat hk
    have hstep := runLoop_key txns s raw (pyLower (pyStrip raw)) rest txn hget hpc
    constructor
    · rw [hstep, keyStep, hk, hamt]
    · intro l
      rw [getD_addTo]
      by_cases hl : l = cat
      · rw [if_pos hl]
        ring
      · rw [if_neg hl]
        ring

/-- Witness for C4: the zero row contributes nothing between two other rows,
and a numbered choice on a zero-amount transaction leaves every balance
unchanged while recording a decision. -/
theorem claim_C4_witness :
    extract_transactions ([⟨"01/01/2024", "A", -7, 0⟩] ++
        (⟨"02/01/2024", "Zero row", 0, 0⟩ : Row) :: [⟨"03/01/2024", "B", 0, 12⟩]) =
      extract_transactions [⟨"01/01/2024", "A", -7, 0⟩] ++
        extract_transactions [⟨"03/01/2024", "B", 0, 12⟩] :=
  (claim_C4_zero_amount_dropped_or_zero_delta ⟨"02/01/2024", "Zero row", 0, 0⟩
    rfl rfl).1 [⟨"01/01/2024", "A", -7, 0⟩] [⟨"03/01/2024", "B", 0, 12⟩]

/-- C7: a quit input terminates the loop immediately — the cursor stays where
it stopped, the remaining input is never read — and the engine returns the
current ledger with the early-termination flag set; `main` then persists the
summary (and chart) of exactly the ledger the engine returned, whether or
not the session quit early, so partial progress is never discarded. -/
theorem claim_C7_quit_terminates_and_persists (txns : List Txn) (s : EngineState)
    (raw : String) (rest : List String) (txn : Txn)
    (hget : txns.get? s.i = some txn)
    (hraw : pyLower (pyStrip raw) = "q" ∨ pyLower (pyStrip raw) = "quit") :
    runLoop txns s (raw :: rest) = ⟨s.i, s.balances, s.history, true⟩ ∧
    (∀ (txns' : List Txn) (start : ℕ) (b0 : Ledger) (inputs : List String),
      main_after_extract txns' start b0 inputs =
        (save_summary (categorise_transactions txns' start b0 inputs).1,
         (categorise_transactions txns' start b0 inputs).2)) :=
  ⟨runLoop_quit txns s raw rest txn hget (parseChoice_quit_of _ hraw),
   fun _ _ _ _ => rfl⟩

/-- Witness for C7: quitting on the first prompt ends the session at cursor 0
with the flag set and the rest of the input unread. -/
theorem claim_C7_witness :
    runLoop [⟨"01/01/2024", "Shop", -3⟩] ⟨0, seedBalances [], [], false⟩ ["q", "1"] =
      ⟨0, seedBalances [], [], true⟩ :=
  (claim_C7_quit_terminates_and_persists [⟨"01/01/2024", "Shop", -3⟩]
    ⟨0, seedBalances [], [], false⟩ "q" ["1"] ⟨"01/01/2024", "Shop", -3⟩ rfl
    (Or.inl (by decide))).1

/-- C8: for a ledger with distinct labels (every Python dict satisfies this),
saving with `save_summary` and loading the written rows with `load_summary`
reproduces the original mapping within two-decimal precision: each label maps
to its balance quantized to cents, every balance is reproduced to within half
a cent, and a balance already expressible in two decimals is reproduced
exactly. -/
theorem claim_C8_save_load_roundtrip (b : Ledger)
    (hnd : (b.map Prod.fst).Nodup) :
    (∀ k, lookupKey (load_summary (save_summary b)) k = (lookupKey b k).map quantize2) ∧
    (∀ k, |getD (load_summary (save_summary b)) k - getD b k| ≤ 1/200) ∧
    (∀ k, (getD b k * 100).den = 1 →
      getD (load_summary (save_summary b)) k = getD b k) := by
  have hsavednd : ((save_summary b).map Prod.fst).Nodup :=
    ((save_summary_keys_perm b).nodup_iff).mpr hnd
  have hload : load_summary (save_summary b) = save_summary b :=
    load_summary_of_nodup _ hsavednd
  have hlk : ∀ k, lookupKey (save_summary b) k = (lookupKey b k).map quantize2 :=
    lookupKey_save_summary b hnd
  refine ⟨fun k => by rw [hload]; exact hlk k, ?_, ?_⟩
  · intro k
    rw [hload]
    unfold getD
    rw [hlk k]
    rcases hx : lookupKey b k with _ | v
    · simp
    · simpa using quantize2_sub_abs v
  · intro k hden
    rw [hload]
    unfold getD
    rw [hlk k]
    rcases hx : lookupKey b k with _ | v
    · simp
    · unfold getD at hden
      rw [hx] at hden
      simp only [Option.map_some', Option.getD_some] at hden ⊢
      exact quantize2_of_den_one v hden

/-- Witness for C8 on a ledger holding a third (not representable in two
decimals) and an exact two-decimal balance. -/
theorem claim_C8_witness :
    |getD (load_summary (save_summary [("A", (1 : ℚ)/3), ("B", -50)])) "A" -
      getD [("A", (1 : ℚ)/3), ("B", -50)] "A"| ≤ 1/200 :=
  (claim_C8_save_load_roundtrip [("A", (1 : ℚ)/3), ("B", -50)] (by simp)).2.1 "A"
